import Mathlib

/-!
Shallow embedding of the RAG core of the MyPaperAgent repository
(`src/rag/chunker.py`, `src/rag/embeddings.py`, `src/rag/vector_store.py`,
`src/rag/retriever.py`) and proofs about it.

Modelling conventions:
* Python strings are Lean `String`s (a `String` is a list of `Char`s).
  The whitespace class of Python regexes is modelled by its ASCII members,
  which is what the repository inputs use.
* The tiktoken encoder is an external library; it is modelled as an opaque
  deterministic function `tok : String → Nat` carried by the `TextChunker`
  structure (the Tokenizer Adapter contract of the spec).
* The embedding backends (Voyage / OpenAI) are external network services;
  a backend is modelled as a function `List String → Option (List Vec)`,
  `none` meaning the batch call raised.  Embedding vectors are `List Rat`
  (exact stand-ins for the float vectors, which no modelled operation
  inspects numerically).
* The ChromaDB collection is modelled as a `List VRec` of records; `add`
  appends, `get(where={"paper_id": p})` filters on the metadata key,
  `delete(ids=…)` removes the records whose id is in the list.
* Python dicts used as metadata are association lists with single-binding
  update semantics (`dictSet` / `dictUpdate` / `dictGet`).
* Raising is modelled with `Except String`; the store-threading operations
  return the post-state next to the result, which models the fact that
  mutations performed before an exception persist.
-/

namespace MyPaperAgent

/-- ASCII members of the Python whitespace class. -/
def isWS (c : Char) : Bool :=
  c = ' ' || c = '\t' || c = '\n' || c = '\r' || c = '\x0b' || c = '\x0c'

/-- Python strip on the underlying char list. -/
def stripList (cs : List Char) : List Char :=
  ((cs.dropWhile isWS).reverse.dropWhile isWS).reverse

/-- Python strip, `str.strip()`. -/
def pyStrip (s : String) : String := ⟨stripList s.data⟩

/-- Tests for a sentence-terminating character of the regex lookbehind class. -/
def isSentEnd (c : Char) : Bool := c = '.' || c = '!' || c = '?'

/-- Splitter behind `re.split(r"\n\s*\n", text)`.
`acc` is the current piece (reversed), `run` the pending whitespace run
(reversed).  A maximal whitespace run containing at least two newlines is
exactly a (leftmost, greedy) match of the pattern; the whitespace around the
matched `\n … \n` core is stripped by the caller either way. -/
def parasAux : List Char → List Char → List Char → List (List Char)
  | [], acc, run =>
      if 2 ≤ run.countP (· = '\n') then [acc.reverse, []]
      else [(run ++ acc).reverse]
  | c :: cs, acc, run =>
      if isWS c then parasAux cs acc (c :: run)
      else if 2 ≤ run.countP (· = '\n') then acc.reverse :: parasAux cs [c] []
      else parasAux cs (c :: (run ++ acc)) []

/-- Splitter behind `re.split(r"(?<=[.!?])\s+", text)`.
`inSep` records that we are inside a separator whitespace run; a whitespace
character opens a separator exactly when the previous character (head of the
reversed accumulator) is `.`, `!` or `?`. -/
def sentAux : List Char → List Char → Bool → List (List Char)
  | [], acc, _ => [acc.reverse]
  | c :: cs, acc, true =>
      if isWS c then sentAux cs acc true
      else sentAux cs [c] false
  | c :: cs, acc, false =>
      if isWS c ∧ (acc.head?.map isSentEnd).getD false then
        acc.reverse :: sentAux cs [] true
      else sentAux cs (c :: acc) false

/-- Splitter behind the Python bare `str.split()` (split on whitespace runs,
dropping empty pieces). -/
def wordsAux : List Char → List Char → List (List Char)
  | [], acc => if acc.isEmpty then [] else [acc.reverse]
  | c :: cs, acc =>
      if isWS c then
        if acc.isEmpty then wordsAux cs [] else acc.reverse :: wordsAux cs []
      else wordsAux cs (c :: acc)

/-- Python bare split, `text.split()` with no argument. -/
def pySplit (s : String) : List String := (wordsAux s.data []).map (⟨·⟩)

/-- Sentence splitting, `re.split` on whitespace runs preceded by `.`, `!` or `?`. -/
def splitSentences (s : String) : List String := (sentAux s.data [] false).map (⟨·⟩)

/-- Python string join, `sep.join(parts)`. -/
def joinSep (sep : String) : List String → String
  | [] => ""
  | [s] => s
  | s :: rest => s ++ sep ++ joinSep sep rest

/-- The string has no whitespace character, i.e. it is (at most) one
whitespace-delimited word. -/
def noWS (s : String) : Bool := s.data.all (fun c => !isWS c)

/-- Scalar metadata values occurring in this pipeline (`None`, ints, strings,
bools; the only kinds the repository stores). -/
inductive MetaVal where
  | vNone : MetaVal
  | vInt : Int → MetaVal
  | vStr : String → MetaVal
  | vBool : Bool → MetaVal
deriving DecidableEq

/-- A Python dict used as metadata: association list with unique conceptual
bindings maintained by `dictSet`. -/
abbrev Meta := List (String × MetaVal)

/-- Dict assignment: replace the binding in place or append it. -/
def dictSet (d : Meta) (k : String) (v : MetaVal) : Meta :=
  if d.any (fun kv => kv.1 = k) then
    d.map (fun kv => if kv.1 = k then (k, v) else kv)
  else d ++ [(k, v)]

/-- Dict update, last writer wins per key. -/
def dictUpdate (d e : Meta) : Meta :=
  e.foldl (fun acc kv => dictSet acc kv.1 kv.2) d

/-- Dict lookup, `d.get(k)`. -/
def dictGet (d : Meta) (k : String) : Option MetaVal :=
  (d.find? (fun kv => kv.1 = k)).map (fun kv => kv.2)

/-- Python str coercion for the interpolations performed by the retriever. -/
def pyStr : MetaVal → String
  | .vNone => "None"
  | .vInt i => toString i
  | .vStr s => s
  | .vBool b => if b then "True" else "False"

/-! ## Chunker (`src/rag/chunker.py`) -/

/-- Configuration of `TextChunker`: resolved chunk sizes plus the tiktoken encoding,
the latter abstracted as a token-counting function (`_count_tokens`). -/
structure TextChunker where
  chunk_size : Nat
  chunk_overlap : Nat
  tok : String → Nat

/-- A chunk dictionary as produced by `TextChunker._create_chunk`. -/
structure Chunk where
  text : String
  index : Nat
  token_count : Nat
  metadata : Meta
deriving DecidableEq

/-- Sum of token counts of the strings in a buffer. -/
def sumTok (tok : String → Nat) (l : List String) : Nat := (l.map tok).sum

/-- Embeds `TextChunker._split_into_paragraphs`. -/
def split_into_paragraphs (text : String) : List String :=
  ((parasAux text.data [] []).map (fun cs => pyStrip ⟨cs⟩)).filter (· ≠ "")

/-- Embeds `TextChunker._create_chunk`. -/
def create_chunk (C : TextChunker) (text : String) (index : Nat)
    (metadata : Option Meta) : Chunk :=
  { text := text
    index := index
    token_count := C.tok text
    metadata := metadata.getD [] }

/-- State of the word loop of `TextChunker._chunk_by_tokens`
(`chunks`, `temp_chunk`, `temp_tokens`). -/
structure WordState where
  chunks : List String
  temp : List String
  tempTokens : Nat

/-- One iteration of the word loop of `_chunk_by_tokens` (lines 166-175). -/
def wordStep (C : TextChunker) (st : WordState) (word : String) : WordState :=
  let wt := C.tok word
  if C.chunk_size < st.tempTokens + wt then
    { chunks := st.chunks ++ (if st.temp.isEmpty then [] else [joinSep " " st.temp])
      temp := [word]
      tempTokens := wt }
  else
    { chunks := st.chunks, temp := st.temp ++ [word], tempTokens := st.tempTokens + wt }

/-- State of the sentence loop of `_chunk_by_tokens`
(`chunks`, `current_chunk`, `current_tokens`). -/
structure SentState where
  chunks : List String
  cur : List String
  curTokens : Nat

/-- One iteration of the sentence loop of `_chunk_by_tokens` (lines 151-190). -/
def sentStep (C : TextChunker) (st : SentState) (sentence : String) : SentState :=
  let stk := C.tok sentence
  if C.chunk_size < stk then
    let flushed : SentState :=
      if st.cur.isEmpty then st
      else { chunks := st.chunks ++ [joinSep " " st.cur], cur := [], curTokens := 0 }
    let w := (pySplit sentence).foldl (wordStep C) { chunks := flushed.chunks, temp := [], tempTokens := 0 }
    { chunks := w.chunks ++ (if w.temp.isEmpty then [] else [joinSep " " w.temp])
      cur := flushed.cur
      curTokens := flushed.curTokens }
  else if C.chunk_size < st.curTokens + stk then
    { chunks := st.chunks ++ (if st.cur.isEmpty then [] else [joinSep " " st.cur])
      cur := [sentence]
      curTokens := stk }
  else
    { chunks := st.chunks, cur := st.cur ++ [sentence], curTokens := st.curTokens + stk }

/-- Embeds `TextChunker._chunk_by_tokens`. -/
def chunk_by_tokens (C : TextChunker) (text : String) : List String :=
  let st := (splitSentences text).foldl (sentStep C) { chunks := [], cur := [], curTokens := 0 }
  st.chunks ++ (if st.cur.isEmpty then [] else [joinSep " " st.cur])

/-- State of the paragraph loop of `TextChunker.chunk_text`
(`chunks`, `current_chunk`, `current_tokens`). -/
structure ChunkState where
  chunks : List Chunk
  cur : List String
  curTokens : Nat

/-- Append the sub-chunks of an oversized paragraph (lines 73-75). -/
def addSubChunks (C : TextChunker) (meta : Option Meta) (chunks : List Chunk)
    (subs : List String) : List Chunk :=
  subs.foldl (fun acc s => acc ++ [create_chunk C s acc.length meta]) chunks

/-- The overlap-seeding decision on flush (lines 87-104): the buffer the next
chunk starts from, before the incoming paragraph is appended. -/
def seedAfterFlush (C : TextChunker) (cur : List String) (paraTokens : Nat) : List String :=
  if 0 < C.chunk_overlap then
    let overlap_text := cur.getLast?.getD ""
    let overlap_tokens := C.tok overlap_text
    if overlap_tokens ≤ C.chunk_overlap ∧ overlap_tokens + paraTokens ≤ C.chunk_size then
      [overlap_text]
    else []
  else []

/-- One iteration of the paragraph loop of `TextChunker.chunk_text`
(lines 60-108). -/
def chunkStep (C : TextChunker) (meta : Option Meta) (st : ChunkState)
    (paragraph : String) : ChunkState :=
  let pt := C.tok paragraph
  if C.chunk_size < pt then
    let flushed : ChunkState :=
      if st.cur.isEmpty then st
      else
        { chunks := st.chunks ++ [create_chunk C (joinSep "\n\n" st.cur) st.chunks.length meta]
          cur := []
          curTokens := 0 }
    { chunks := addSubChunks C meta flushed.chunks (chunk_by_tokens C paragraph)
      cur := flushed.cur
      curTokens := flushed.curTokens }
  else
    let st2 : ChunkState :=
      if st.cur ≠ [] ∧ (C.chunk_size < st.curTokens + pt ∨ 2 ≤ st.cur.length) then
        let seed := seedAfterFlush C st.cur pt
        { chunks := st.chunks ++ [create_chunk C (joinSep "\n\n" st.cur) st.chunks.length meta]
          cur := seed
          curTokens := sumTok C.tok seed }
      else st
    { chunks := st2.chunks, cur := st2.cur ++ [paragraph], curTokens := st2.curTokens + pt }

/-- Embeds `TextChunker.chunk_text`. -/
def chunk_text (C : TextChunker) (text : String) (metadata : Option Meta) : List Chunk :=
  let paragraphs := split_into_paragraphs text
  let st := paragraphs.foldl (chunkStep C metadata) { chunks := [], cur := [], curTokens := 0 }
  if st.cur.isEmpty then st.chunks
  else st.chunks ++ [create_chunk C (joinSep "\n\n" st.cur) st.chunks.length metadata]

/-! ## Embeddings (`src/rag/embeddings.py`) -/

/-- An embedding vector (floats modelled exactly). -/
abbrev Vec := List Rat

/-- The provider backend call made by `EmbeddingGenerator.embed_batch`
(`self.client.embed(...)` for Voyage, `self.client.embeddings.create(...)` for
OpenAI, both returning the vectors in response order); `none` models the call
raising.  Both concrete branches reduce to one batch call whose result list is
taken as-is, which is what this parameter captures. -/
abbrev Backend := List String → Option (List Vec)

/-- Embeds `EmbeddingGenerator.embed_batch` (lines 78-109): empty input returns `[]`
before any provider call; a provider failure is re-raised as an
`EmbeddingError`. -/
def embed_batch (backend : Backend) (texts : List String) : Except String (List Vec) :=
  if texts.isEmpty then .ok []
  else
    match backend texts with
    | some embeddings => .ok embeddings
    | none => .error "Failed to generate embeddings"

/-! ## Vector store (`src/rag/vector_store.py`) -/

/-- A record of the ChromaDB collection: id, document text, sanitized
metadata and embedding vector. -/
structure VRec where
  id : String
  text : String
  meta : Meta
  vec : Vec
deriving DecidableEq

/-- The collection state. -/
abbrev Store := List VRec

/-- Embeds `VectorStore._sanitize_metadata`: drop `None` values; every value kind the
pipeline stores (ints, strings, bools) is already ChromaDB-compatible, and the
`str(value)` coercion branch is not reachable for them. -/
def sanitize_metadata (metadata : Meta) : Meta :=
  metadata.filter (fun kv => kv.2 ≠ MetaVal.vNone)

/-- Embeds `collection.add`: zip the parallel arrays into records and append them. -/
def buildRecs : List String → List Meta → List String → List Vec → List VRec
  | t :: ts, m :: ms, i :: is, v :: vs => ⟨i, t, m, v⟩ :: buildRecs ts ms is vs
  | _, _, _, _ => []

/-- The record matches the metadata filter `where={"paper_id": paper_id}`. -/
def pmatch (paper_id : Int) (r : VRec) : Bool :=
  dictGet r.meta "paper_id" == some (MetaVal.vInt paper_id)

/-- Embeds `VectorStore.add_documents` (lines 65-121).  Returns the resulting
collection next to the raised error or the returned ids. -/
def add_documents (backend : Backend) (store : Store) (texts : List String)
    (metadata : List Meta) (ids : Option (List String)) :
    Store × Except String (List String) :=
  if texts.isEmpty then (store, .ok [])
  else if texts.length ≠ metadata.length then
    (store, .error ("Number of texts (" ++ toString texts.length ++
      ") must match number of metadata (" ++ toString metadata.length ++ ")"))
  else
    match embed_batch backend texts with
    | .error e => (store, .error ("Failed to add documents: " ++ e))
    | .ok embeddings =>
        (store ++ buildRecs texts (metadata.map sanitize_metadata)
          (ids.getD ((List.range texts.length).map
            (fun i => "doc_" ++ toString (store.length + i)))) embeddings,
         .ok (ids.getD ((List.range texts.length).map
            (fun i => "doc_" ++ toString (store.length + i)))))

/-- Embeds `VectorStore.add_paper_chunks` (lines 135-172). -/
def add_paper_chunks (backend : Backend) (store : Store) (paper_id : Int)
    (chunks : List Chunk) : Store × Except String (List String) :=
  if chunks.isEmpty then (store, .ok [])
  else
    add_documents backend store (chunks.map Chunk.text)
      (chunks.map (fun c =>
        dictUpdate [("paper_id", MetaVal.vInt paper_id),
                    ("chunk_index", MetaVal.vInt c.index),
                    ("token_count", MetaVal.vInt c.token_count)] c.metadata))
      (some (chunks.map (fun c =>
        "paper_" ++ toString paper_id ++ "_chunk_" ++ toString c.index)))

/-- Embeds `VectorStore.delete_paper_chunks` (lines 241-264): look up the ids of the
records matching the paper, then delete those ids (a no-op when none match). -/
def delete_paper_chunks (store : Store) (paper_id : Int) : Store :=
  let ids := (store.filter (pmatch paper_id)).map VRec.id
  if ids.isEmpty then store
  else store.filter (fun r => !(ids.contains r.id))

/-- Embeds `VectorStore.get_paper_chunk_count` (lines 266-279). -/
def get_paper_chunk_count (store : Store) (paper_id : Int) : Nat :=
  (store.filter (pmatch paper_id)).length

/-- The nested (list-of-lists) result shape of `collection.query`. -/
structure NestedResults where
  ids : List (List String)
  documents : List (List String)
  metadatas : List (List Meta)
  distances : List (List Rat)

/-- The flattened result shape returned by `VectorStore.search`. -/
structure RawResults where
  ids : List String
  documents : List String
  metadatas : List Meta
  distances : List Rat

/-- The similarity search performed by the ChromaDB collection: given the
query embedding, `n_results` and the optional metadata filter, it returns the
nested result arrays.  Ranking happens inside this external call. -/
abbrev CollectionQuery := Vec → Nat → Option Meta → NestedResults

/-- Embeds `VectorStore.search` (lines 174-220): embed the query, run the collection
query, flatten the nested arrays (`results["ids"][0] if results["ids"] else []`). -/
def vs_search (embedQ : String → Vec) (cq : CollectionQuery) (query : String)
    (n_results : Nat) (filter : Option Meta) : RawResults :=
  let results := cq (embedQ query) n_results filter
  { ids := results.ids.headD []
    documents := results.documents.headD []
    metadatas := results.metadatas.headD []
    distances := results.distances.headD [] }

/-- Embeds `VectorStore.search_by_paper` (lines 222-239). -/
def search_by_paper (embedQ : String → Vec) (cq : CollectionQuery) (query : String)
    (paper_id : Int) (n_results : Nat) : RawResults :=
  vs_search embedQ cq query n_results (some [("paper_id", MetaVal.vInt paper_id)])

/-! ## Retriever (`src/rag/retriever.py`) -/

/-- The slice of the external `Paper` row the retriever reads. -/
structure Paper where
  id : Int
  full_text : String
  title : MetaVal
  authors : MetaVal
  year : MetaVal

/-- A formatted search result dict (`RAGRetriever.search`, lines 106-116). -/
structure SearchResult where
  id : String
  text : String
  metadata : Meta
  distance : Rat
  relevance_score : Rat

/-- Python truthiness of the `Optional[int]` argument `paper_id`. -/
def pyTruthyInt : Option Int → Bool
  | none => false
  | some n => n != 0

/-- The result-formatting loop of `RAGRetriever.search` (lines 105-118). -/
def formatResults (raw : RawResults) : List SearchResult :=
  (List.range raw.ids.length).map (fun i =>
    { id := raw.ids.getD i ""
      text := raw.documents.getD i ""
      metadata := raw.metadatas.getD i []
      distance := raw.distances.getD i 0
      relevance_score := 1 - raw.distances.getD i 0 })

/-- Embeds `RAGRetriever.search` (lines 84-118): the truthiness test scopes the search
only when the argument is truthy. -/
def retriever_search (embedQ : String → Vec) (cq : CollectionQuery) (query : String)
    (n_results : Nat) (paper_id : Option Int) : List SearchResult :=
  let results :=
    if pyTruthyInt paper_id then
      search_by_paper embedQ cq query (paper_id.getD 0) n_results
    else vs_search embedQ cq query n_results none
  formatResults results

/-- Embeds `RAGRetriever.get_context_for_query` (lines 120-149): the context-part
accumulation loop followed by the `"\n---\n"` join. -/
def get_context_for_query (embedQ : String → Vec) (cq : CollectionQuery)
    (query : String) (n_results : Nat) (paper_id : Option Int) : String :=
  let results := retriever_search embedQ cq query n_results paper_id
  let context_parts := results.foldl (fun parts result =>
    let title := pyStr ((dictGet result.metadata "title").getD (MetaVal.vStr "Unknown"))
    let pid := pyStr ((dictGet result.metadata "paper_id").getD (MetaVal.vStr "Unknown"))
    parts ++ ["[Paper " ++ pid ++ ": " ++ title ++ "]\n" ++ result.text ++ "\n"]) []
  joinSep "\n---\n" context_parts

/-- The chunk metadata assembled by `RAGRetriever.index_paper` (lines 68-76). -/
def indexMeta (paper_id : Int) (paper : Paper) : Meta :=
  [("paper_id", MetaVal.vInt paper_id),
   ("title", paper.title),
   ("authors", paper.authors),
   ("year", paper.year)]

/-- Embeds `RAGRetriever.index_paper` (lines 33-82): look the paper up, validate,
delete stale chunks if any, chunk, store. -/
def index_paper (C : TextChunker) (backend : Backend) (papers : List Paper)
    (paper_id : Int) (store : Store) : Store × Except String Nat :=
  match papers.find? (fun p => p.id == paper_id) with
  | none => (store, .error ("Paper " ++ toString paper_id ++ " not found"))
  | some paper =>
    if paper.full_text = "" then
      (store, .error ("Paper " ++ toString paper_id ++ " has no text content"))
    else
      match add_paper_chunks backend
        (if 0 < get_paper_chunk_count store paper_id then
          delete_paper_chunks store paper_id
        else store)
        paper_id (chunk_text C paper.full_text (some (indexMeta paper_id paper))) with
      | (store2, .ok chunk_ids) => (store2, .ok chunk_ids.length)
      | (store2, .error e) => (store2, .error e)

/-- Proof abbreviation: the store after the stale-chunk clearing step of
`index_paper`
(lines 58-65), before anything is inserted. -/
def staleCleared (store : Store) (paper_id : Int) : Store :=
  if 0 < get_paper_chunk_count store paper_id then delete_paper_chunks store paper_id
  else store

/-- Proof abbreviation: the records `index_paper` inserts for a paper when
the batch embedding call returns `vs`. -/
def newRecords (C : TextChunker) (paper_id : Int) (P : Paper) (vs : List Vec) : List VRec :=
  buildRecs ((chunk_text C P.full_text (some (indexMeta paper_id P))).map Chunk.text)
    (((chunk_text C P.full_text (some (indexMeta paper_id P))).map (fun c =>
      dictUpdate [("paper_id", MetaVal.vInt paper_id),
                  ("chunk_index", MetaVal.vInt c.index),
                  ("token_count", MetaVal.vInt c.token_count)] c.metadata)).map
      sanitize_metadata)
    ((chunk_text C P.full_text (some (indexMeta paper_id P))).map (fun c =>
      "paper_" ++ toString paper_id ++ "_chunk_" ++ toString c.index))
    vs

/-! ## Predicates and invariants used by the theorems -/

/-- The chunk-budget property claimed for one chunk: within budget, or a lone
whitespace-delimited word that itself exceeds the budget. -/
def chunkWithinBudget (C : TextChunker) (c : Chunk) : Prop :=
  c.token_count ≤ C.chunk_size ∨
    (noWS c.text = true ∧ c.text ≠ "" ∧ C.chunk_size < c.token_count)

instance (C : TextChunker) (c : Chunk) : Decidable (chunkWithinBudget C c) := by
  unfold chunkWithinBudget; infer_instance

/-- The budget property for a raw chunk string. -/
def okStr (C : TextChunker) (s : String) : Prop :=
  C.tok s ≤ C.chunk_size ∨ (noWS s = true ∧ s ≠ "" ∧ C.chunk_size < C.tok s)

/-- Invariant of the word loop of `_chunk_by_tokens`. -/
def WordInv (C : TextChunker) (st : WordState) : Prop :=
  (∀ s ∈ st.chunks, okStr C s) ∧
  st.tempTokens = sumTok C.tok st.temp ∧
  (sumTok C.tok st.temp ≤ C.chunk_size ∨ ∃ w, st.temp = [w] ∧ C.chunk_size < C.tok w) ∧
  (∀ w ∈ st.temp, w ≠ "" ∧ noWS w = true)

/-- Invariant of the sentence loop of `_chunk_by_tokens`. -/
def SentInv (C : TextChunker) (st : SentState) : Prop :=
  (∀ s ∈ st.chunks, okStr C s) ∧
  st.curTokens = sumTok C.tok st.cur ∧
  sumTok C.tok st.cur ≤ C.chunk_size

/-- Invariant of the paragraph loop of `chunk_text`. -/
def MainInv (C : TextChunker) (st : ChunkState) : Prop :=
  (∀ c ∈ st.chunks, chunkWithinBudget C c) ∧
  st.curTokens = sumTok C.tok st.cur ∧
  sumTok C.tok st.cur ≤ C.chunk_size

/-- The chunk indices are their positions in the list. -/
def Indexed (l : List Chunk) : Prop := l.map Chunk.index = List.range l.length

/-- A concrete tokenizer used in witnesses: number of non-whitespace
characters.  It satisfies the Tokenizer Adapter contract and is subadditive
across the whitespace separators used to join chunk parts. -/
def countNonWS (s : String) : Nat := s.data.countP (fun c => !isWS c)

/-- Modelled from the spec: the context block format claimed in 4.5,
`"[Source {source_id}: {title}]\n{text}\n"` joined with `"\n---\n"` (header
label `Source`, id and title looked up in the hit metadata with a default). -/
def spec_context_format (results : List SearchResult) : String :=
  joinSep "\n---\n" (results.map (fun result =>
    let title := pyStr ((dictGet result.metadata "title").getD (MetaVal.vStr "Unknown"))
    let pid := pyStr ((dictGet result.metadata "paper_id").getD (MetaVal.vStr "Unknown"))
    "[Source " ++ pid ++ ": " ++ title ++ "]\n" ++ result.text ++ "\n"))

/-! ## General helper lemmas -/

theorem foldlInv {α β : Type _} {P : β → Prop} (f : β → α → β) :
    ∀ (l : List α) (b : β), P b → (∀ b a, a ∈ l → P b → P (f b a)) →
      P (l.foldl f b) := by
  intro l
  induction l with
  | nil => intro b hb _; exact hb
  | cons a t ih =>
      intro b hb hstep
      exact ih (f b a) (hstep b a (by simp) hb)
        (fun b' a' ha' hb' => hstep b' a' (by simp [ha']) hb')

theorem foldl_append_singleton {α β : Type _} (g : α → β) :
    ∀ (l : List α) (acc : List β),
      l.foldl (fun parts r => parts ++ [g r]) acc = acc ++ l.map g := by
  intro l
  induction l with
  | nil => intro acc; simp
  | cons a t ih => intro acc; simp [ih]

/-! ## C10 -/

/-- C10: `add_documents` on an empty texts list returns `[]` immediately, for
every metadatas list (even a non-empty one), every ids argument and every
embedding backend (in particular a failing one, so the provider is never
consulted), leaving the store unchanged; the length-mismatch validation is
not applied in this case. -/
theorem C10_add_documents_empty_texts (backend : Backend) (store : Store)
    (metadata : List Meta) (ids : Option (List String)) :
    add_documents backend store [] metadata ids = (store, .ok []) := rfl

/-! ## C7 -/

/-- C7 counterexample: with `texts = []` and one metadata entry the lengths
differ, yet `add_documents` succeeds with `[]` instead of failing with a
validation error, so the universally quantified claim is false as stated. -/
theorem C7_counterexample :
    ([] : List String).length ≠ ([[("k", MetaVal.vInt 1)]] : List Meta).length ∧
    add_documents (fun _ => none) [] [] [[("k", MetaVal.vInt 1)]] none =
      ([], .ok []) := by
  exact ⟨by decide, rfl⟩

/-- C7 amended: for every *non-empty* texts list, `add_documents` fails with
the length-mismatch `VectorStoreError` whenever the lengths differ — for
every backend (so nothing is embedded) and with the store unchanged. -/
theorem C7_amended_length_mismatch (backend : Backend) (store : Store)
    (texts : List String) (metadata : List Meta) (ids : Option (List String))
    (hne : texts ≠ []) (hlen : texts.length ≠ metadata.length) :
    add_documents backend store texts metadata ids =
      (store, .error ("Number of texts (" ++ toString texts.length ++
        ") must match number of metadata (" ++ toString metadata.length ++ ")")) := by
  unfold add_documents
  rw [if_neg, if_pos hlen]
  simp [hne]

/-- C7 witness: the amended theorem applied at a concrete mismatched input. -/
theorem C7_amended_witness :
    (["a"] : List String) ≠ [] ∧
    (["a"] : List String).length ≠ ([] : List Meta).length ∧
    add_documents (fun _ => none) [] ["a"] [] none =
      ([], .error ("Number of texts (" ++ toString (["a"] : List String).length ++
        ") must match number of metadata (" ++ toString ([] : List Meta).length ++ ")")) :=
  ⟨by decide, by decide,
   C7_amended_length_mismatch (fun _ => none) [] ["a"] [] none (by decide) (by decide)⟩

/-! ## C6 -/

/-- C6: `embed_batch` on the empty list returns `[]` for every backend
(the provider is never called), and on any texts list for which the backend
returns one vector per input in input order, `embed_batch` passes the vectors
through unchanged (no reordering, no truncation), so the i-th output is the
embedding the backend computed for the i-th input. -/
theorem C6_embed_batch_order (backend : Backend) (texts : List String)
    (vecs : List Vec) (hcall : backend texts = some vecs)
    (hlen : vecs.length = texts.length) :
    (∀ b : Backend, embed_batch b [] = .ok []) ∧
    embed_batch backend texts = .ok vecs := by
  refine ⟨fun b => rfl, ?_⟩
  unfold embed_batch
  match texts, hcall, hlen with
  | [], hcall, hlen =>
      simp only [List.isEmpty_nil, if_true]
      have : vecs = [] := List.length_eq_zero.mp hlen
      simp [this]
  | t :: ts, hcall, _ => simp [hcall]

/-- C6 witness: the theorem applied to a concrete backend and batch. -/
theorem C6_embed_batch_order_witness :
    (fun _ : List String => some ([[], []] : List Vec)) ["a", "bb"] = some [[], []] ∧
    ([[], []] : List Vec).length = (["a", "bb"] : List String).length ∧
    embed_batch (fun _ => some [[], []]) ["a", "bb"] = .ok [[], []] :=
  ⟨rfl, rfl, (C6_embed_batch_order (fun _ => some [[], []]) ["a", "bb"] [[], []] rfl rfl).2⟩

/-! ## C9 -/

/-- C9: passing `paper_id = 0` to the retriever search (and hence to
`get_context_for_query`) runs the *global*, unfiltered search — identical to
passing no paper id at all — because the scoping test is Python truthiness;
a non-zero paper id is the only way to get the scoped search. -/
theorem C9_zero_paper_id_unscoped (embedQ : String → Vec) (cq : CollectionQuery)
    (query : String) (n_results : Nat) (pid : Int) (hpid : pid ≠ 0) :
    retriever_search embedQ cq query n_results (some 0) =
      retriever_search embedQ cq query n_results none ∧
    get_context_for_query embedQ cq query n_results (some 0) =
      get_context_for_query embedQ cq query n_results none ∧
    retriever_search embedQ cq query n_results (some pid) =
      formatResults (vs_search embedQ cq query n_results
        (some [("paper_id", MetaVal.vInt pid)])) := by
  refine ⟨rfl, rfl, ?_⟩
  simp [retriever_search, search_by_paper, pyTruthyInt, hpid]

/-- C9 witness: at a concrete backend that distinguishes filtered from
unfiltered queries, `paper_id = 0` takes the unfiltered path and `paper_id = 7`
the filtered one. -/
theorem C9_zero_paper_id_unscoped_witness :
    (7 : Int) ≠ 0 ∧
    retriever_search (fun _ => []) (fun _ _ f =>
        match f with
        | none => ⟨[["g"]], [["gdoc"]], [[[]]], [[0]]⟩
        | some _ => ⟨[["s"]], [["sdoc"]], [[[]]], [[0]]⟩) "q" 5 (some 0) =
      retriever_search (fun _ => []) (fun _ _ f =>
        match f with
        | none => ⟨[["g"]], [["gdoc"]], [[[]]], [[0]]⟩
        | some _ => ⟨[["s"]], [["sdoc"]], [[[]]], [[0]]⟩) "q" 5 none :=
  ⟨by decide,
   (C9_zero_paper_id_unscoped (fun _ => []) (fun _ _ f =>
      match f with
      | none => ⟨[["g"]], [["gdoc"]], [[[]]], [[0]]⟩
      | some _ => ⟨[["s"]], [["sdoc"]], [[[]]], [[0]]⟩) "q" 5 7 (by decide)).1⟩

/-! ## C5 -/

/-- C5 counterexample: at a concrete one-hit search result the code produces a
`[Paper 3: T]` header block, not the `[Source 3: T]` block the claim states. -/
theorem C5_counterexample :
    get_context_for_query (fun _ => [])
      (fun _ _ _ => ⟨[["id1"]], [["body"]],
        [[[("paper_id", MetaVal.vInt 3), ("title", MetaVal.vStr "T")]]], [[0]]⟩)
      "q" 5 none = "[Paper 3: T]\nbody\n" ∧
    spec_context_format (retriever_search (fun _ => [])
      (fun _ _ _ => ⟨[["id1"]], [["body"]],
        [[[("paper_id", MetaVal.vInt 3), ("title", MetaVal.vStr "T")]]], [[0]]⟩)
      "q" 5 none) = "[Source 3: T]\nbody\n" ∧
    "[Paper 3: T]\nbody\n" ≠ "[Source 3: T]\nbody\n" := by
  refine ⟨by decide, by decide, by decide⟩

/-- C5 amended: `get_context_for_query` formats each hit of the search result
list as the block `"[Paper {paper_id}: {title}]\n{text}\n"` (both fields read
from the hit metadata, defaulting to `"Unknown"` when absent) and joins the
blocks with the `"\n---\n"` separator, preserving the order returned by
`search`. -/
theorem C5_amended_context_format (embedQ : String → Vec) (cq : CollectionQuery)
    (query : String) (n_results : Nat) (paper_id : Option Int) :
    get_context_for_query embedQ cq query n_results paper_id =
      joinSep "\n---\n" ((retriever_search embedQ cq query n_results paper_id).map
        (fun result =>
          "[Paper " ++
            pyStr ((dictGet result.metadata "paper_id").getD (MetaVal.vStr "Unknown")) ++
          ": " ++
            pyStr ((dictGet result.metadata "title").getD (MetaVal.vStr "Unknown")) ++
          "]\n" ++ result.text ++ "\n")) := by
  simp only [get_context_for_query, foldl_append_singleton, List.nil_append]

/-! ## C8 -/

theorem indexed_nil : Indexed [] := by simp [Indexed]

theorem indexed_append_create (C : TextChunker) (meta : Option Meta)
    (l : List Chunk) (s : String) (h : Indexed l) :
    Indexed (l ++ [create_chunk C s l.length meta]) := by
  unfold Indexed at *
  simp [List.range_succ, h, create_chunk]

theorem indexed_addSubChunks (C : TextChunker) (meta : Option Meta)
    (l : List Chunk) (subs : List String) (h : Indexed l) :
    Indexed (addSubChunks C meta l subs) := by
  unfold addSubChunks
  exact foldlInv _ subs l h (fun b a _ hb => indexed_append_create C meta b a hb)

theorem indexed_chunkStep (C : TextChunker) (meta : Option Meta)
    (st : ChunkState) (p : String) (h : Indexed st.chunks) :
    Indexed (chunkStep C meta st p).chunks := by
  unfold chunkStep
  by_cases h1 : C.chunk_size < C.tok p
  · simp only [if_pos h1]
    by_cases h2 : st.cur.isEmpty
    · simp only [if_pos h2]
      exact indexed_addSubChunks C meta _ _ h
    · simp only [if_neg h2]
      exact indexed_addSubChunks C meta _ _ (indexed_append_create C meta _ _ h)
  · simp only [if_neg h1]
    by_cases h2 : st.cur ≠ [] ∧ (C.chunk_size < st.curTokens + C.tok p ∨ 2 ≤ st.cur.length)
    · simp only [if_pos h2]
      exact indexed_append_create C meta _ _ h
    · simp only [if_neg h2]
      exact h

/-- C8: the `index` values of the chunks returned by one `chunk_text` call
are exactly `0, 1, 2, …` in list order, i.e. the index of each chunk is its
position in the returned list, for every text, metadata and configuration. -/
theorem C8_index_contiguity (C : TextChunker) (text : String) (metadata : Option Meta) :
    (chunk_text C text metadata).map Chunk.index =
      List.range (chunk_text C text metadata).length := by
  unfold chunk_text
  have hst : Indexed ((split_into_paragraphs text).foldl
      (chunkStep C metadata) { chunks := [], cur := [], curTokens := 0 }).chunks := by
    have := foldlInv (P := fun st : ChunkState => Indexed st.chunks)
      (chunkStep C metadata) (split_into_paragraphs text)
      { chunks := [], cur := [], curTokens := 0 } indexed_nil
      (fun b a _ hb => indexed_chunkStep C metadata b a hb)
    exact this
  by_cases hcur : ((split_into_paragraphs text).foldl
      (chunkStep C metadata) { chunks := [], cur := [], curTokens := 0 }).cur.isEmpty
  · simp only [if_pos hcur]
    exact hst
  · simp only [if_neg hcur]
    exact indexed_append_create C metadata _ _ hst

/-! ## C4 -/

/-- C4: whenever processing paragraph `p` closes the current non-empty buffer
(flushes a chunk) and `chunk_overlap > 0`, the buffer the next chunk starts
from is seeded with exactly the last paragraph of the just-closed chunk if
and only if the token count of that paragraph is at most `chunk_overlap` and
that count plus the token count of `p` stays within `chunk_size`; otherwise the next
buffer starts empty (in the oversized-paragraph branch `p` is not buffered at
all).  In particular never more than one paragraph is carried over. -/
theorem C4_overlap_seeding (C : TextChunker) (meta : Option Meta)
    (st : ChunkState) (p : String) (hcur : st.cur ≠ [])
    (hov : 0 < C.chunk_overlap)
    (hflush : C.chunk_size < C.tok p ∨ C.chunk_size < st.curTokens + C.tok p ∨
      2 ≤ st.cur.length) :
    (chunkStep C meta st p).cur =
      if C.chunk_size < C.tok p then []
      else if C.tok (st.cur.getLast hcur) ≤ C.chunk_overlap ∧
              C.tok (st.cur.getLast hcur) + C.tok p ≤ C.chunk_size then
        [st.cur.getLast hcur, p]
      else [p] := by
  have hlast : st.cur.getLast?.getD "" = st.cur.getLast hcur := by
    rw [List.getLast?_eq_getLast st.cur hcur]
    rfl
  unfold chunkStep seedAfterFlush
  by_cases h1 : C.chunk_size < C.tok p
  · simp only [if_pos h1]
    have : st.cur.isEmpty = false := by
      simp [List.isEmpty_iff, hcur]
    simp [this]
  · have h2 : st.cur ≠ [] ∧ (C.chunk_size < st.curTokens + C.tok p ∨ 2 ≤ st.cur.length) :=
      ⟨hcur, hflush.resolve_left h1⟩
    simp only [if_neg h1, if_pos h2, if_pos hov, hlast]
    by_cases h3 : C.tok (st.cur.getLast hcur) ≤ C.chunk_overlap ∧
        C.tok (st.cur.getLast hcur) + C.tok p ≤ C.chunk_size
    · simp [h3]
    · simp [h3]

/-- C4 witness: a concrete flush in which the overlap condition fails (the
seed would overflow the budget), so the next buffer holds only the incoming
paragraph. -/
theorem C4_overlap_seeding_witness :
    (["abc"] : List String) ≠ [] ∧
    0 < (5 : Nat) ∧
    ((5 : Nat) < String.length "def" ∨ (5 : Nat) < 3 + String.length "def" ∨
      2 ≤ (["abc"] : List String).length) ∧
    (chunkStep ⟨5, 5, String.length⟩ none
      { chunks := [], cur := ["abc"], curTokens := 3 } "def").cur = ["def"] := by
  refine ⟨by decide, by decide, by decide, ?_⟩
  have h := C4_overlap_seeding ⟨5, 5, String.length⟩ none
    { chunks := [], cur := ["abc"], curTokens := 3 } "def" (by decide) (by decide)
    (by right; left; decide)
  simpa using h

/-! ## C1 helper lemmas -/

theorem sumTok_nil (tok : String → Nat) : sumTok tok [] = 0 := rfl

theorem sumTok_singleton (tok : String → Nat) (s : String) :
    sumTok tok [s] = tok s := by simp [sumTok]

theorem sumTok_append_singleton (tok : String → Nat) (l : List String) (s : String) :
    sumTok tok (l ++ [s]) = sumTok tok l + tok s := by simp [sumTok]

theorem joinSep_tok_le (C : TextChunker) (sep : String)
    (hsep : ∀ a b, C.tok (a ++ sep ++ b) ≤ C.tok a + C.tok b) :
    ∀ l : List String, l ≠ [] → C.tok (joinSep sep l) ≤ sumTok C.tok l := by
  intro l
  induction l with
  | nil => intro h; exact absurd rfl h
  | cons x t ih =>
      intro _
      cases t with
      | nil => simp [joinSep, sumTok]
      | cons y t2 =>
          have hj : joinSep sep (x :: y :: t2) = x ++ sep ++ joinSep sep (y :: t2) := rfl
          calc C.tok (joinSep sep (x :: y :: t2))
              ≤ C.tok x + C.tok (joinSep sep (y :: t2)) := by
                rw [hj]; exact hsep x (joinSep sep (y :: t2))
            _ ≤ C.tok x + sumTok C.tok (y :: t2) := by
                have := ih (by simp)
                omega
            _ = sumTok C.tok (x :: y :: t2) := by simp [sumTok]

theorem wordsAux_sound : ∀ (cs acc : List Char), (∀ c ∈ acc, isWS c = false) →
    ∀ w ∈ wordsAux cs acc, w ≠ [] ∧ ∀ c ∈ w, isWS c = false := by
  intro cs
  induction cs with
  | nil =>
      intro acc hacc w hw
      unfold wordsAux at hw
      by_cases h : acc.isEmpty
      · simp [h] at hw
      · simp only [h, Bool.false_eq_true, if_false, List.mem_singleton] at hw
        subst hw
        refine ⟨?_, ?_⟩
        · have : acc ≠ [] := by simpa [List.isEmpty_iff] using h
          simpa using this
        · intro c hc; exact hacc c (List.mem_reverse.mp hc)
  | cons c cs ih =>
      intro acc hacc w hw
      unfold wordsAux at hw
      by_cases h : isWS c = true
      · rw [if_pos h] at hw
        by_cases h2 : acc.isEmpty
        · rw [if_pos h2] at hw
          exact ih [] (by simp) w hw
        · rw [if_neg h2] at hw
          rcases List.mem_cons.mp hw with h3 | h3
          · subst h3
            refine ⟨?_, ?_⟩
            · have : acc ≠ [] := by simpa [List.isEmpty_iff] using h2
              simpa using this
            · intro d hd; exact hacc d (List.mem_reverse.mp hd)
          · exact ih [] (by simp) w h3
      · rw [if_neg h] at hw
        refine ih (c :: acc) ?_ w hw
        intro d hd
        rcases List.mem_cons.mp hd with h3 | h3
        · subst h3; simpa using h
        · exact hacc d h3

theorem pySplit_words (s : String) : ∀ w ∈ pySplit s, w ≠ "" ∧ noWS w = true := by
  intro w hw
  unfold pySplit at hw
  rcases List.mem_map.mp hw with ⟨cs, hcs, rfl⟩
  have h := wordsAux_sound s.data [] (by simp) cs hcs
  refine ⟨?_, ?_⟩
  · intro hc
    exact h.1 (congrArg String.data hc)
  · unfold noWS
    simp only [List.all_eq_true]
    intro c hc
    simp [h.2 c hc]

theorem chunkWithinBudget_create (C : TextChunker) (s : String) (i : Nat)
    (m : Option Meta) (h : okStr C s) : chunkWithinBudget C (create_chunk C s i m) := by
  unfold okStr at h
  unfold chunkWithinBudget create_chunk
  exact h

theorem temp_flush_ok (C : TextChunker)
    (hsp : ∀ a b, C.tok (a ++ " " ++ b) ≤ C.tok a + C.tok b)
    (st : WordState) (h : WordInv C st) :
    ∀ s ∈ st.chunks ++ (if st.temp.isEmpty then [] else [joinSep " " st.temp]),
      okStr C s := by
  obtain ⟨hchunks, _, hbound, htempw⟩ := h
  intro s hs
  rcases List.mem_append.mp hs with hs | hs
  · exact hchunks s hs
  · by_cases he : st.temp.isEmpty
    · simp [he] at hs
    · simp only [he, Bool.false_eq_true, if_false, List.mem_singleton] at hs
      subst hs
      rcases hbound with hb | ⟨w', hw', hbig⟩
      · left
        calc C.tok (joinSep " " st.temp) ≤ sumTok C.tok st.temp :=
              joinSep_tok_le C " " hsp st.temp (by simpa [List.isEmpty_iff] using he)
          _ ≤ C.chunk_size := hb
      · right
        have hmem := htempw w' (by simp [hw'])
        rw [hw']
        exact ⟨hmem.2, hmem.1, hbig⟩

theorem wordStep_inv (C : TextChunker)
    (hsp : ∀ a b, C.tok (a ++ " " ++ b) ≤ C.tok a + C.tok b)
    (st : WordState) (w : String) (hw : w ≠ "" ∧ noWS w = true)
    (h : WordInv C st) : WordInv C (wordStep C st w) := by
  have hflush := temp_flush_ok C hsp st h
  obtain ⟨hchunks, htt, hbound, htempw⟩ := h
  unfold wordStep
  by_cases hc : C.chunk_size < st.tempTokens + C.tok w
  · rw [if_pos hc]
    refine ⟨hflush, by simp [sumTok], ?_, ?_⟩
    · by_cases hsize : C.tok w ≤ C.chunk_size
      · left; simpa [sumTok] using hsize
      · right; exact ⟨w, rfl, by omega⟩
    · intro w' hw'
      simp only [List.mem_singleton] at hw'
      subst hw'; exact hw
  · rw [if_neg hc]
    push_neg at hc
    have hleft : sumTok C.tok st.temp ≤ C.chunk_size := by
      rcases hbound with hb | ⟨w', hw', hbig⟩
      · exact hb
      · exfalso
        have h1 : st.tempTokens = C.tok w' := by
          rw [htt, hw', sumTok_singleton]
        omega
    refine ⟨hchunks, ?_, ?_, ?_⟩
    · rw [sumTok_append_singleton, ← htt]
    · left
      rw [sumTok_append_singleton]
      omega
    · intro w' hw'
      rcases List.mem_append.mp hw' with h3 | h3
      · exact htempw w' h3
      · simp only [List.mem_singleton] at h3
        subst h3; exact hw

theorem sentStep_inv (C : TextChunker)
    (hsp : ∀ a b, C.tok (a ++ " " ++ b) ≤ C.tok a + C.tok b)
    (st : SentState) (s : String) (h : SentInv C st) :
    SentInv C (sentStep C st s) := by
  obtain ⟨hchunks, hct, hbound⟩ := h
  unfold sentStep
  by_cases h1 : C.chunk_size < C.tok s
  · rw [if_pos h1]
    by_cases he : st.cur.isEmpty
    · simp only [he, if_true]
      have hwinv : WordInv C ((pySplit s).foldl (wordStep C)
          { chunks := st.chunks, temp := [], tempTokens := 0 }) := by
        refine foldlInv (P := WordInv C) (wordStep C) (pySplit s) _
          ⟨hchunks, rfl, Or.inl (by simp [sumTok]), by simp⟩ ?_
        intro b a ha hb
        exact wordStep_inv C hsp b a (pySplit_words s a ha) hb
      exact ⟨temp_flush_ok C hsp _ hwinv, hct, hbound⟩
    · simp only [he, Bool.false_eq_true, if_false]
      have hcurok : okStr C (joinSep " " st.cur) := by
        left
        calc C.tok (joinSep " " st.cur) ≤ sumTok C.tok st.cur :=
              joinSep_tok_le C " " hsp st.cur (by simpa [List.isEmpty_iff] using he)
          _ ≤ C.chunk_size := hbound
      have hwinv : WordInv C ((pySplit s).foldl (wordStep C)
          { chunks := st.chunks ++ [joinSep " " st.cur], temp := [], tempTokens := 0 }) := by
        refine foldlInv (P := WordInv C) (wordStep C) (pySplit s) _
          ⟨?_, rfl, Or.inl (by simp [sumTok]), by simp⟩ ?_
        · intro x hx
          rcases List.mem_append.mp hx with hx | hx
          · exact hchunks x hx
          · simp only [List.mem_singleton] at hx
            subst hx; exact hcurok
        · intro b a ha hb
          exact wordStep_inv C hsp b a (pySplit_words s a ha) hb
      exact ⟨temp_flush_ok C hsp _ hwinv, rfl, by simp [sumTok]⟩
  · rw [if_neg h1]
    push_neg at h1
    by_cases h2 : C.chunk_size < st.curTokens + C.tok s
    · rw [if_pos h2]
      refine ⟨?_, by rw [sumTok_singleton], by rwa [sumTok_singleton]⟩
      intro x hx
      rcases List.mem_append.mp hx with hx | hx
      · exact hchunks x hx
      · by_cases he : st.cur.isEmpty
        · simp [he] at hx
        · simp only [he, Bool.false_eq_true, if_false, List.mem_singleton] at hx
          subst hx
          left
          calc C.tok (joinSep " " st.cur) ≤ sumTok C.tok st.cur :=
                joinSep_tok_le C " " hsp st.cur (by simpa [List.isEmpty_iff] using he)
            _ ≤ C.chunk_size := hbound
    · rw [if_neg h2]
      push_neg at h2
      refine ⟨hchunks, ?_, ?_⟩
      · rw [sumTok_append_singleton, ← hct]
      · rw [sumTok_append_singleton]
        omega

theorem chunk_by_tokens_ok (C : TextChunker)
    (hsp : ∀ a b, C.tok (a ++ " " ++ b) ≤ C.tok a + C.tok b)
    (text : String) : ∀ s ∈ chunk_by_tokens C text, okStr C s := by
  unfold chunk_by_tokens
  have h : SentInv C ((splitSentences text).foldl (sentStep C)
      { chunks := [], cur := [], curTokens := 0 }) := by
    refine foldlInv (P := SentInv C) (sentStep C) (splitSentences text) _
      ⟨by simp, rfl, by simp [sumTok]⟩ ?_
    intro b a _ hb
    exact sentStep_inv C hsp b a hb
  obtain ⟨hchunks, _, hbound⟩ := h
  intro s hs
  rcases List.mem_append.mp hs with hs | hs
  · exact hchunks s hs
  · by_cases he : ((splitSentences text).foldl (sentStep C)
        { chunks := [], cur := [], curTokens := 0 }).cur.isEmpty
    · simp [he] at hs
    · simp only [he, Bool.false_eq_true, if_false, List.mem_singleton] at hs
      subst hs
      left
      calc C.tok (joinSep " " _) ≤ sumTok C.tok _ :=
            joinSep_tok_le C " " hsp _ (by simpa [List.isEmpty_iff] using he)
        _ ≤ C.chunk_size := hbound

theorem addSubChunks_ok (C : TextChunker) (meta : Option Meta)
    (l : List Chunk) (subs : List String)
    (hl : ∀ c ∈ l, chunkWithinBudget C c) (hs : ∀ s ∈ subs, okStr C s) :
    ∀ c ∈ addSubChunks C meta l subs, chunkWithinBudget C c := by
  unfold addSubChunks
  refine foldlInv (P := fun acc => ∀ c ∈ acc, chunkWithinBudget C c)
    _ subs l hl ?_
  intro b a ha hb c hc
  rcases List.mem_append.mp hc with hc | hc
  · exact hb c hc
  · simp only [List.mem_singleton] at hc
    subst hc
    exact chunkWithinBudget_create C a b.length meta (hs a ha)

theorem seedAfterFlush_sum_bound (C : TextChunker) (cur : List String) (pt : Nat)
    (hpt : pt ≤ C.chunk_size) :
    sumTok C.tok (seedAfterFlush C cur pt) + pt ≤ C.chunk_size := by
  unfold seedAfterFlush
  by_cases h1 : 0 < C.chunk_overlap
  · rw [if_pos h1]
    by_cases h2 : C.tok (cur.getLast?.getD "") ≤ C.chunk_overlap ∧
        C.tok (cur.getLast?.getD "") + pt ≤ C.chunk_size
    · rw [if_pos h2, sumTok_singleton]
      exact h2.2
    · rw [if_neg h2, sumTok_nil]
      omega
  · rw [if_neg h1, sumTok_nil]
    omega

theorem chunkStep_inv (C : TextChunker) (meta : Option Meta)
    (h1 : ∀ a b, C.tok (a ++ "\n\n" ++ b) ≤ C.tok a + C.tok b)
    (h2 : ∀ a b, C.tok (a ++ " " ++ b) ≤ C.tok a + C.tok b)
    (st : ChunkState) (p : String) (h : MainInv C st) :
    MainInv C (chunkStep C meta st p) := by
  obtain ⟨hchunks, hct, hbound⟩ := h
  have hcurflush : st.cur.isEmpty = false →
      ∀ c ∈ st.chunks ++ [create_chunk C (joinSep "\n\n" st.cur) st.chunks.length meta],
        chunkWithinBudget C c := by
    intro he c hc
    rcases List.mem_append.mp hc with hc | hc
    · exact hchunks c hc
    · simp only [List.mem_singleton] at hc
      subst hc
      refine chunkWithinBudget_create C _ _ _ (Or.inl ?_)
      calc C.tok (joinSep "\n\n" st.cur) ≤ sumTok C.tok st.cur :=
            joinSep_tok_le C "\n\n" h1 st.cur (by simpa [List.isEmpty_iff] using he)
        _ ≤ C.chunk_size := hbound
  unfold chunkStep
  by_cases hp : C.chunk_size < C.tok p
  · rw [if_pos hp]
    by_cases he : st.cur.isEmpty
    · simp only [he, if_true]
      exact ⟨addSubChunks_ok C meta _ _ hchunks (chunk_by_tokens_ok C h2 p),
        hct, hbound⟩
    · simp only [he, Bool.false_eq_true, if_false]
      refine ⟨addSubChunks_ok C meta _ _ (hcurflush (by simpa using he))
        (chunk_by_tokens_ok C h2 p), rfl, by simp [sumTok]⟩
  · rw [if_neg hp]
    push_neg at hp
    by_cases hf : st.cur ≠ [] ∧ (C.chunk_size < st.curTokens + C.tok p ∨ 2 ≤ st.cur.length)
    · rw [if_pos hf]
      refine ⟨hcurflush (by simp [List.isEmpty_iff, hf.1]), ?_, ?_⟩
      · rw [sumTok_append_singleton]
      · rw [sumTok_append_singleton]
        exact seedAfterFlush_sum_bound C st.cur (C.tok p) hp
    · rw [if_neg hf]
      refine ⟨hchunks, by rw [sumTok_append_singleton, ← hct], ?_⟩
      rw [sumTok_append_singleton, ← hct]
      by_cases hc : st.cur = []
      · have : st.curTokens = 0 := by rw [hct, hc, sumTok_nil]
        omega
      · have : ¬ (C.chunk_size < st.curTokens + C.tok p ∨ 2 ≤ st.cur.length) := by
          intro hcontra
          exact hf ⟨hc, hcontra⟩
        push_neg at this
        exact Nat.le_of_lt_succ (Nat.lt_succ_of_le this.1)

/-! ## C1 -/

/-- C1 counterexample: with `chunk_size = 4`, `chunk_overlap = 0` and the
token counter `String.length` (a deterministic counter satisfying the
Tokenizer Adapter contract of spec 4.1, and — like a BPE tokenizer on the
`"\n\n"` join — not additive across the separator), the two 2-token
paragraphs of `"aa\n\nbb"` are packed into one chunk whose recorded
`token_count` is 6 > 4, and that chunk is not a single word: the claim is
false as stated. -/
theorem C1_counterexample :
    ¬ (∀ c ∈ chunk_text ⟨4, 0, String.length⟩ "aa\n\nbb" none,
        chunkWithinBudget ⟨4, 0, String.length⟩ c) := by
  decide

/-- C1 amended: provided the token counter is subadditive across the two
separators used to join chunk parts (`"\n\n"` between paragraphs, `" "`
between sentences/words) — the property the budget bookkeeping of
`chunk_text` implicitly relies on — every chunk emitted by `chunk_text` has
`token_count ≤ chunk_size`, except chunks consisting of one
whitespace-delimited word whose own token count exceeds `chunk_size`. -/
theorem C1_amended_chunk_budget (C : TextChunker) (text : String)
    (metadata : Option Meta)
    (h1 : ∀ a b, C.tok (a ++ "\n\n" ++ b) ≤ C.tok a + C.tok b)
    (h2 : ∀ a b, C.tok (a ++ " " ++ b) ≤ C.tok a + C.tok b) :
    ∀ c ∈ chunk_text C text metadata, chunkWithinBudget C c := by
  unfold chunk_text
  have h : MainInv C ((split_into_paragraphs text).foldl (chunkStep C metadata)
      { chunks := [], cur := [], curTokens := 0 }) := by
    refine foldlInv (P := MainInv C) (chunkStep C metadata) _ _
      ⟨by simp, rfl, by simp [sumTok]⟩ ?_
    intro b a _ hb
    exact chunkStep_inv C metadata h1 h2 b a hb
  obtain ⟨hchunks, _, hbound⟩ := h
  by_cases he : ((split_into_paragraphs text).foldl (chunkStep C metadata)
      { chunks := [], cur := [], curTokens := 0 }).cur.isEmpty
  · simp only [he, if_true]
    exact hchunks
  · simp only [he, Bool.false_eq_true, if_false]
    intro c hc
    rcases List.mem_append.mp hc with hc | hc
    · exact hchunks c hc
    · simp only [List.mem_singleton] at hc
      subst hc
      refine chunkWithinBudget_create C _ _ _ (Or.inl ?_)
      calc C.tok (joinSep "\n\n" _) ≤ sumTok C.tok _ :=
            joinSep_tok_le C "\n\n" h1 _ (by simpa [List.isEmpty_iff] using he)
        _ ≤ C.chunk_size := hbound

theorem countNonWS_sep_subadd (sep : String) (hsep : ∀ c ∈ sep.data, isWS c = true) :
    ∀ a b : String, countNonWS (a ++ sep ++ b) ≤ countNonWS a + countNonWS b := by
  intro a b
  unfold countNonWS
  rw [String.data_append, String.data_append, List.countP_append, List.countP_append]
  have hz : sep.data.countP (fun c => !isWS c) = 0 := by
    rw [List.countP_eq_zero]
    intro c hc
    simp [hsep c hc]
  omega

/-- C1 witness: the amended theorem applied to the concrete subadditive
counter `countNonWS`, discharging the two subadditivity hypotheses. -/
theorem C1_amended_chunk_budget_witness :
    (∀ a b : String, countNonWS (a ++ "\n\n" ++ b) ≤ countNonWS a + countNonWS b) ∧
    (∀ a b : String, countNonWS (a ++ " " ++ b) ≤ countNonWS a + countNonWS b) ∧
    ∀ c ∈ chunk_text ⟨4, 0, countNonWS⟩ "aa\n\nbb" none,
      chunkWithinBudget ⟨4, 0, countNonWS⟩ c :=
  ⟨countNonWS_sep_subadd "\n\n" (by decide),
   countNonWS_sep_subadd " " (by decide),
   C1_amended_chunk_budget ⟨4, 0, countNonWS⟩ "aa\n\nbb" none
     (countNonWS_sep_subadd "\n\n" (by decide))
     (countNonWS_sep_subadd " " (by decide))⟩

/-! ## Store lemmas for C2 and C3 -/

theorem delete_paper_chunks_pm_nil (store : Store) (pid : Int) :
    (delete_paper_chunks store pid).filter (pmatch pid) = [] := by
  unfold delete_paper_chunks
  by_cases he : ((store.filter (pmatch pid)).map VRec.id).isEmpty
  · rw [if_pos he]
    have : store.filter (pmatch pid) = [] := by
      have := List.isEmpty_iff.mp he
      exact List.map_eq_nil_iff.mp this
    exact this
  · rw [if_neg he]
    rw [List.filter_eq_nil_iff]
    intro r hr hpm
    have hmem := List.mem_filter.mp hr
    have hid : r.id ∈ (store.filter (pmatch pid)).map VRec.id :=
      List.mem_map_of_mem VRec.id (List.mem_filter.mpr ⟨hmem.1, hpm⟩)
    have hcont : ((store.filter (pmatch pid)).map VRec.id).contains r.id = true := by
      simpa using hid
    rw [hcont] at hmem
    simp at hmem

theorem count_zero_pm_nil (store : Store) (pid : Int)
    (h : get_paper_chunk_count store pid = 0) :
    store.filter (pmatch pid) = [] := by
  unfold get_paper_chunk_count at h
  exact List.length_eq_zero.mp h

theorem staleCleared_pm_nil (store : Store) (pid : Int) :
    (staleCleared store pid).filter (pmatch pid) = [] := by
  unfold staleCleared
  by_cases h : 0 < get_paper_chunk_count store pid
  · rw [if_pos h]
    exact delete_paper_chunks_pm_nil store pid
  · rw [if_neg h]
    exact count_zero_pm_nil store pid (by omega)

theorem buildRecs_map_text : ∀ (ts : List String) (ms : List Meta)
    (is : List String) (vs : List Vec),
    ts.length ≤ ms.length → ts.length ≤ is.length → ts.length ≤ vs.length →
    (buildRecs ts ms is vs).map VRec.text = ts := by
  intro ts
  induction ts with
  | nil => intro ms is vs _ _ _; rfl
  | cons t ts ih =>
      intro ms is vs h1 h2 h3
      match ms, is, vs with
      | [], _, _ => simp at h1
      | _ :: _, [], _ => simp at h2
      | _ :: _, _ :: _, [] => simp at h3
      | m :: ms, i :: is, v :: vs =>
          have hh : buildRecs (t :: ts) (m :: ms) (i :: is) (v :: vs) =
              ⟨i, t, m, v⟩ :: buildRecs ts ms is vs := rfl
          rw [hh, List.map_cons]
          rw [ih ms is vs (by simp only [List.length_cons] at h1; omega)
            (by simp only [List.length_cons] at h2; omega)
            (by simp only [List.length_cons] at h3; omega)]

theorem buildRecs_length : ∀ (ts : List String) (ms : List Meta)
    (is : List String) (vs : List Vec),
    ts.length ≤ ms.length → ts.length ≤ is.length → ts.length ≤ vs.length →
    (buildRecs ts ms is vs).length = ts.length := by
  intro ts ms is vs h1 h2 h3
  have := buildRecs_map_text ts ms is vs h1 h2 h3
  calc (buildRecs ts ms is vs).length
      = ((buildRecs ts ms is vs).map VRec.text).length := by rw [List.length_map]
    _ = ts.length := by rw [this]

theorem buildRecs_meta_mem : ∀ (ts : List String) (ms : List Meta)
    (is : List String) (vs : List Vec) (r : VRec),
    r ∈ buildRecs ts ms is vs → r.meta ∈ ms := by
  intro ts
  induction ts with
  | nil => intro ms is vs r hr; cases hr
  | cons t ts ih =>
      intro ms is vs r hr
      match ms, is, vs, hr with
      | [], _, _, hr => cases hr
      | _ :: _, [], _, hr => cases hr
      | _ :: _, _ :: _, [], hr => cases hr
      | m :: ms, i :: is, v :: vs, hr =>
          rcases List.mem_cons.mp hr with h | h
          · subst h; simp
          · exact List.mem_cons_of_mem _ (ih ms is vs r h)

theorem chunk_metadata_addSubChunks (C : TextChunker) (m : Meta)
    (l : List Chunk) (subs : List String) (h : ∀ c ∈ l, c.metadata = m) :
    ∀ c ∈ addSubChunks C (some m) l subs, c.metadata = m := by
  unfold addSubChunks
  refine foldlInv (P := fun acc => ∀ c ∈ acc, c.metadata = m) _ subs l h ?_
  intro b a _ hb c hc
  rcases List.mem_append.mp hc with hc | hc
  · exact hb c hc
  · simp only [List.mem_singleton] at hc
    subst hc
    rfl

theorem chunk_metadata_chunkStep (C : TextChunker) (m : Meta)
    (st : ChunkState) (p : String) (h : ∀ c ∈ st.chunks, c.metadata = m) :
    ∀ c ∈ (chunkStep C (some m) st p).chunks, c.metadata = m := by
  have happ : ∀ s, (∀ c ∈ st.chunks, c.metadata = m) →
      ∀ c ∈ st.chunks ++ [create_chunk C s st.chunks.length (some m)], c.metadata = m := by
    intro s hb c hc
    rcases List.mem_append.mp hc with hc | hc
    · exact hb c hc
    · simp only [List.mem_singleton] at hc
      subst hc
      rfl
  unfold chunkStep
  by_cases hp : C.chunk_size < C.tok p
  · rw [if_pos hp]
    by_cases he : st.cur.isEmpty
    · simp only [he, if_true]
      exact chunk_metadata_addSubChunks C m _ _ h
    · simp only [he, Bool.false_eq_true, if_false]
      exact chunk_metadata_addSubChunks C m _ _ (happ _ h)
  · rw [if_neg hp]
    by_cases hf : st.cur ≠ [] ∧ (C.chunk_size < st.curTokens + C.tok p ∨ 2 ≤ st.cur.length)
    · rw [if_pos hf]
      exact happ _ h
    · rw [if_neg hf]
      exact h

theorem chunk_text_metadata (C : TextChunker) (text : String) (m : Meta) :
    ∀ c ∈ chunk_text C text (some m), c.metadata = m := by
  unfold chunk_text
  have h : ∀ c ∈ ((split_into_paragraphs text).foldl (chunkStep C (some m))
      { chunks := [], cur := [], curTokens := 0 }).chunks, c.metadata = m := by
    refine foldlInv (P := fun st : ChunkState => ∀ c ∈ st.chunks, c.metadata = m)
      _ _ _ (by simp) ?_
    intro b a _ hb
    exact chunk_metadata_chunkStep C m b a hb
  by_cases he : ((split_into_paragraphs text).foldl (chunkStep C (some m))
      { chunks := [], cur := [], curTokens := 0 }).cur.isEmpty
  · simp only [he, if_true]
    exact h
  · simp only [he, Bool.false_eq_true, if_false]
    intro c hc
    rcases List.mem_append.mp hc with hc | hc
    · exact h c hc
    · simp only [List.mem_singleton] at hc
      subst hc
      rfl

theorem dictGet_sanitized_paper_id (pid ci tc : Int) (tv av yv : MetaVal) :
    dictGet (sanitize_metadata (dictUpdate
      [("paper_id", MetaVal.vInt pid), ("chunk_index", MetaVal.vInt ci),
       ("token_count", MetaVal.vInt tc)]
      [("paper_id", MetaVal.vInt pid), ("title", tv), ("authors", av), ("year", yv)]))
      "paper_id" = some (MetaVal.vInt pid) := by
  simp [dictUpdate, dictSet, dictGet, sanitize_metadata, List.find?]

theorem newRecords_pmatch (C : TextChunker) (pid : Int) (P : Paper) (vs : List Vec) :
    ∀ r ∈ newRecords C pid P vs, pmatch pid r = true := by
  intro r hr
  unfold newRecords at hr
  have hmeta := buildRecs_meta_mem _ _ _ _ r hr
  rcases List.mem_map.mp hmeta with ⟨m0, hm0, hm0eq⟩
  rcases List.mem_map.mp hm0 with ⟨c, hc, hceq⟩
  have hcm := chunk_text_metadata C P.full_text (indexMeta pid P) c hc
  unfold pmatch
  rw [← hm0eq, ← hceq, hcm]
  unfold indexMeta
  rw [dictGet_sanitized_paper_id]
  simp

theorem newRecords_map_text (C : TextChunker) (pid : Int) (P : Paper) (vs : List Vec)
    (hlen : vs.length = (chunk_text C P.full_text (some (indexMeta pid P))).length) :
    (newRecords C pid P vs).map VRec.text =
      (chunk_text C P.full_text (some (indexMeta pid P))).map Chunk.text := by
  unfold newRecords
  refine buildRecs_map_text _ _ _ _ ?_ ?_ ?_ <;> simp [hlen]

theorem newRecords_pm_filter (C : TextChunker) (pid : Int) (P : Paper) (vs : List Vec) :
    (newRecords C pid P vs).filter (pmatch pid) = newRecords C pid P vs := by
  rw [List.filter_eq_self]
  intro r hr
  exact newRecords_pmatch C pid P vs r hr

theorem newRecords_length (C : TextChunker) (pid : Int) (P : Paper) (vs : List Vec)
    (hlen : vs.length = (chunk_text C P.full_text (some (indexMeta pid P))).length) :
    (newRecords C pid P vs).length =
      (chunk_text C P.full_text (some (indexMeta pid P))).length := by
  have h := newRecords_map_text C pid P vs hlen
  calc (newRecords C pid P vs).length
      = ((newRecords C pid P vs).map VRec.text).length := (List.length_map _ _).symm
    _ = ((chunk_text C P.full_text (some (indexMeta pid P))).map Chunk.text).length := by
        rw [h]
    _ = (chunk_text C P.full_text (some (indexMeta pid P))).length :=
        List.length_map _ _

theorem index_paper_found (C : TextChunker) (backend : Backend) (papers : List Paper)
    (pid : Int) (store : Store) (P : Paper)
    (hfind : papers.find? (fun p => p.id == pid) = some P) :
    index_paper C backend papers pid store =
      (if P.full_text = "" then
        (store, .error ("Paper " ++ toString pid ++ " has no text content"))
      else
        match add_paper_chunks backend
          (if 0 < get_paper_chunk_count store pid then delete_paper_chunks store pid
           else store)
          pid (chunk_text C P.full_text (some (indexMeta pid P))) with
        | (store2, .ok chunk_ids) => (store2, .ok chunk_ids.length)
        | (store2, .error e) => (store2, .error e)) := by
  unfold index_paper
  rw [hfind]

theorem add_paper_chunks_embed_some (backend : Backend) (store : Store) (pid : Int)
    (chunks : List Chunk) (vs : List Vec)
    (hchunks : chunks ≠ [])
    (hemb : backend (chunks.map Chunk.text) = some vs) :
    add_paper_chunks backend store pid chunks =
      (store ++ buildRecs (chunks.map Chunk.text)
        ((chunks.map (fun c =>
          dictUpdate [("paper_id", MetaVal.vInt pid),
                      ("chunk_index", MetaVal.vInt c.index),
                      ("token_count", MetaVal.vInt c.token_count)] c.metadata)).map
          sanitize_metadata)
        (chunks.map (fun c => "paper_" ++ toString pid ++ "_chunk_" ++ toString c.index))
        vs,
       .ok (chunks.map (fun c =>
        "paper_" ++ toString pid ++ "_chunk_" ++ toString c.index))) := by
  have hce : ¬ (chunks.isEmpty = true) := by simp [List.isEmpty_iff, hchunks]
  have hte : ¬ ((chunks.map Chunk.text).isEmpty = true) := by
    simp [List.isEmpty_iff, hchunks]
  have hlen : ¬ ((chunks.map Chunk.text).length ≠
      (chunks.map (fun c =>
        dictUpdate [("paper_id", MetaVal.vInt pid),
                    ("chunk_index", MetaVal.vInt c.index),
                    ("token_count", MetaVal.vInt c.token_count)] c.metadata)).length) := by
    simp
  unfold add_paper_chunks add_documents embed_batch
  rw [if_neg hce, if_neg hte, if_neg hlen, if_neg hte, hemb]
  rfl

theorem add_paper_chunks_embed_none (backend : Backend) (store : Store) (pid : Int)
    (chunks : List Chunk)
    (hchunks : chunks ≠ [])
    (hfail : backend (chunks.map Chunk.text) = none) :
    add_paper_chunks backend store pid chunks =
      (store, .error "Failed to add documents: Failed to generate embeddings") := by
  have hce : ¬ (chunks.isEmpty = true) := by simp [List.isEmpty_iff, hchunks]
  have hte : ¬ ((chunks.map Chunk.text).isEmpty = true) := by
    simp [List.isEmpty_iff, hchunks]
  have hlen : ¬ ((chunks.map Chunk.text).length ≠
      (chunks.map (fun c =>
        dictUpdate [("paper_id", MetaVal.vInt pid),
                    ("chunk_index", MetaVal.vInt c.index),
                    ("token_count", MetaVal.vInt c.token_count)] c.metadata)).length) := by
    simp
  unfold add_paper_chunks add_documents embed_batch
  rw [if_neg hce, if_neg hte, if_neg hlen, if_neg hte, hfail]
  rfl

theorem index_paper_ok (C : TextChunker) (backend : Backend) (papers : List Paper)
    (pid : Int) (store : Store) (P : Paper) (vs : List Vec)
    (hfind : papers.find? (fun p => p.id == pid) = some P)
    (htext : P.full_text ≠ "")
    (hchunks : chunk_text C P.full_text (some (indexMeta pid P)) ≠ [])
    (hemb : backend ((chunk_text C P.full_text (some (indexMeta pid P))).map Chunk.text)
      = some vs) :
    index_paper C backend papers pid store =
      (staleCleared store pid ++ newRecords C pid P vs,
       .ok (chunk_text C P.full_text (some (indexMeta pid P))).length) := by
  rw [index_paper_found C backend papers pid store P hfind, if_neg htext,
    add_paper_chunks_embed_some _ _ _ _ vs hchunks hemb]
  simp only [staleCleared, newRecords, List.length_map]

theorem index_paper_nochunks (C : TextChunker) (backend : Backend)
    (papers : List Paper) (pid : Int) (store : Store) (P : Paper)
    (hfind : papers.find? (fun p => p.id == pid) = some P)
    (htext : P.full_text ≠ "")
    (hchunks : chunk_text C P.full_text (some (indexMeta pid P)) = []) :
    index_paper C backend papers pid store = (staleCleared store pid, .ok 0) := by
  rw [index_paper_found C backend papers pid store P hfind, if_neg htext, hchunks]
  simp only [staleCleared]
  rfl

/-! ## C2 -/

/-- C2 counterexample: a paper that already has one indexed chunk is
re-indexed with a backend whose batch embedding call fails.  The attempt
aborts with an error, but the final store differs from the initial store —
the pre-existing chunk was deleted before the embedding call, contradicting
the claim that no store mutation happens before embeddings succeed. -/
theorem C2_counterexample :
    (index_paper ⟨100, 10, String.length⟩ (fun _ => none)
      [⟨1, "hello", MetaVal.vStr "T", MetaVal.vNone, MetaVal.vNone⟩] 1
      [⟨"paper_1_chunk_0", "old", [("paper_id", MetaVal.vInt 1)], []⟩]).2 =
      .error "Failed to add documents: Failed to generate embeddings" ∧
    (index_paper ⟨100, 10, String.length⟩ (fun _ => none)
      [⟨1, "hello", MetaVal.vStr "T", MetaVal.vNone, MetaVal.vNone⟩] 1
      [⟨"paper_1_chunk_0", "old", [("paper_id", MetaVal.vInt 1)], []⟩]).1 ≠
      [⟨"paper_1_chunk_0", "old", [("paper_id", MetaVal.vInt 1)], []⟩] := by
  exact ⟨rfl, by decide⟩

/-- C2 amended: when the batch embedding call fails, `index_paper` aborts
with the wrapped error and *no insertion* takes place — the final store is
exactly the initial store after the stale-chunk clearing step.  That clearing
(deleting the existing chunks of the source) happens *before* chunking and
embedding, so on embedding failure the source is left with zero indexed
chunks rather than its previous ones. -/
theorem C2_amended_delete_happens_before_embed (C : TextChunker) (backend : Backend)
    (papers : List Paper) (pid : Int) (store : Store) (P : Paper)
    (hfind : papers.find? (fun p => p.id == pid) = some P)
    (htext : P.full_text ≠ "")
    (hchunks : chunk_text C P.full_text (some (indexMeta pid P)) ≠ [])
    (hfail : backend ((chunk_text C P.full_text (some (indexMeta pid P))).map Chunk.text)
      = none) :
    index_paper C backend papers pid store =
      (staleCleared store pid,
       .error "Failed to add documents: Failed to generate embeddings") := by
  rw [index_paper_found C backend papers pid store P hfind, if_neg htext,
    add_paper_chunks_embed_none _ _ _ _ hchunks hfail]
  simp only [staleCleared]

/-- C2 witness: the amended theorem applied at the concrete inputs of the
counterexample. -/
theorem C2_amended_witness :
    index_paper ⟨100, 10, String.length⟩ (fun _ => none)
      [⟨1, "hello", MetaVal.vStr "T", MetaVal.vNone, MetaVal.vNone⟩] 1
      [⟨"paper_1_chunk_0", "old", [("paper_id", MetaVal.vInt 1)], []⟩] =
      (staleCleared [⟨"paper_1_chunk_0", "old", [("paper_id", MetaVal.vInt 1)], []⟩] 1,
       .error "Failed to add documents: Failed to generate embeddings") :=
  C2_amended_delete_happens_before_embed ⟨100, 10, String.length⟩ (fun _ => none)
    [⟨1, "hello", MetaVal.vStr "T", MetaVal.vNone, MetaVal.vNone⟩] 1
    [⟨"paper_1_chunk_0", "old", [("paper_id", MetaVal.vInt 1)], []⟩]
    ⟨1, "hello", MetaVal.vStr "T", MetaVal.vNone, MetaVal.vNone⟩
    rfl (by decide) (by decide) rfl

/-! ## C3 -/

/-- C3: re-indexing an unchanged paper is idempotent.  Under a deterministic
backend that succeeds on the chunk texts of the paper with one vector per chunk,
indexing the paper twice in a row yields the same `get_paper_chunk_count`
after each call, and the chunk texts stored for the paper after the second
call are exactly a fresh chunking of the current text of the paper. -/
theorem C3_idempotent_reindex (C : TextChunker) (backend : Backend)
    (papers : List Paper) (pid : Int) (store : Store) (P : Paper) (vs : List Vec)
    (hfind : papers.find? (fun p => p.id == pid) = some P)
    (htext : P.full_text ≠ "")
    (hemb : backend ((chunk_text C P.full_text (some (indexMeta pid P))).map Chunk.text)
      = some vs)
    (hlen : vs.length = (chunk_text C P.full_text (some (indexMeta pid P))).length) :
    get_paper_chunk_count (index_paper C backend papers pid store).1 pid =
      get_paper_chunk_count
        (index_paper C backend papers pid (index_paper C backend papers pid store).1).1
        pid ∧
    ((index_paper C backend papers pid (index_paper C backend papers pid store).1).1.filter
        (pmatch pid)).map VRec.text =
      (chunk_text C P.full_text (some (indexMeta pid P))).map Chunk.text := by
  by_cases hchunks : chunk_text C P.full_text (some (indexMeta pid P)) = []
  · rw [index_paper_nochunks C backend papers pid store P hfind htext hchunks]
    rw [index_paper_nochunks C backend papers pid (staleCleared store pid) P hfind htext
      hchunks]
    have h1 : (staleCleared store pid).filter (pmatch pid) = [] :=
      staleCleared_pm_nil store pid
    have h2 : (staleCleared (staleCleared store pid) pid).filter (pmatch pid) = [] :=
      staleCleared_pm_nil (staleCleared store pid) pid
    constructor
    · unfold get_paper_chunk_count
      rw [h1, h2]
    · rw [h2, hchunks]
      rfl
  · rw [index_paper_ok C backend papers pid store P vs hfind htext hchunks hemb]
    rw [index_paper_ok C backend papers pid
      (staleCleared store pid ++ newRecords C pid P vs) P vs hfind htext hchunks hemb]
    have hfilter1 : (staleCleared store pid ++ newRecords C pid P vs).filter (pmatch pid)
        = newRecords C pid P vs := by
      rw [List.filter_append, staleCleared_pm_nil, newRecords_pm_filter]
      rfl
    have hfilter2 : (staleCleared (staleCleared store pid ++ newRecords C pid P vs) pid ++
        newRecords C pid P vs).filter (pmatch pid) = newRecords C pid P vs := by
      rw [List.filter_append, staleCleared_pm_nil, newRecords_pm_filter]
      rfl
    constructor
    · unfold get_paper_chunk_count
      rw [hfilter1, hfilter2]
    · rw [hfilter2]
      exact newRecords_map_text C pid P vs hlen

/-- C3 witness: the theorem applied at a concrete paper, store and backend. -/
theorem C3_idempotent_reindex_witness :
    get_paper_chunk_count
      (index_paper ⟨100, 0, String.length⟩ (fun ts => some (ts.map (fun _ => [])))
        [⟨1, "hello", MetaVal.vStr "T", MetaVal.vNone, MetaVal.vNone⟩] 1 []).1 1 =
    get_paper_chunk_count
      (index_paper ⟨100, 0, String.length⟩ (fun ts => some (ts.map (fun _ => [])))
        [⟨1, "hello", MetaVal.vStr "T", MetaVal.vNone, MetaVal.vNone⟩] 1
        (index_paper ⟨100, 0, String.length⟩ (fun ts => some (ts.map (fun _ => [])))
          [⟨1, "hello", MetaVal.vStr "T", MetaVal.vNone, MetaVal.vNone⟩] 1 []).1).1 1 :=
  (C3_idempotent_reindex ⟨100, 0, String.length⟩ (fun ts => some (ts.map (fun _ => [])))
    [⟨1, "hello", MetaVal.vStr "T", MetaVal.vNone, MetaVal.vNone⟩] 1 []
    ⟨1, "hello", MetaVal.vStr "T", MetaVal.vNone, MetaVal.vNone⟩
    [[]] rfl (by decide) (by decide) (by decide)).1

end MyPaperAgent
